import Mathlib

/-!
Verification of the Zen core (a registry and health engine for Python virtual
environments) against its natural-language specification.

The Rust sources are shallowly embedded: strings are `List Char`, the SQLite
registry is a pure record of tables, filesystem inputs (site-packages,
dist-info directories, pyvenv.cfg, torch/version.py) are explicit data
structures, and every embedded function mirrors one Rust function of the
repository, keeping its name where Lean allows.  Clock values
(`CURRENT_TIMESTAMP`) are passed in as explicit parameters.  Rust's
`HashMap` iteration — whose order is unspecified — is modelled by
insertion-ordered association lists.  SQLite's `LIKE 'p%'` on the
wildcard-free path prefixes used here is modelled as case-sensitive prefix
matching, and `ORDER BY` is modelled by a stable insertion sort.
-/

namespace Zen

/-- Convert a Lean string literal to the `List Char` representation used
throughout the embedding. -/
def chars (s : String) : List Char := s.data

/-- ASCII whitespace recognizer standing in for Rust's
`char::is_whitespace` on the ASCII inputs this development evaluates. -/
def isWsChar (c : Char) : Bool :=
  c = ' ' || c = '\t' || c = '\n' || c = '\r' || c = Char.ofNat 11 || c = Char.ofNat 12

/-- Rust `str::trim`, left half. -/
def trimLeft (l : List Char) : List Char := l.dropWhile isWsChar

/-- Rust `str::trim`, right half. -/
def trimRight (l : List Char) : List Char := (l.reverse.dropWhile isWsChar).reverse

/-- Rust `str::trim`. -/
def trim (l : List Char) : List Char := trimRight (trimLeft l)

/-- Rust `str::trim_matches(c)`: strip every leading and trailing
occurrence of one character. -/
def trimMatchesChar (c : Char) (l : List Char) : List Char :=
  ((l.dropWhile (· = c)).reverse.dropWhile (· = c)).reverse

/-- Rust `str::trim_start_matches(c)`. -/
def trimStartMatchesChar (c : Char) (l : List Char) : List Char :=
  l.dropWhile (· = c)

/-- Rust `str::trim_end_matches(c)`. -/
def trimEndMatchesChar (c : Char) (l : List Char) : List Char :=
  (l.reverse.dropWhile (· = c)).reverse

/-- Rust `str::split(sep)` for a single-character separator: all segments,
empty segments preserved, `""` yields `[""]`. -/
def splitOnChar (sep : Char) : List Char → List (List Char)
  | [] => [[]]
  | c :: rest =>
    if c = sep then [] :: splitOnChar sep rest
    else
      match splitOnChar sep rest with
      | [] => [[c]]
      | s :: ss => (c :: s) :: ss

/-- Rust `str::split_once(c)`. -/
def splitOnceChar (c : Char) : List Char → Option (List Char × List Char)
  | [] => none
  | x :: rest =>
    if x = c then some ([], rest)
    else (splitOnceChar c rest).map (fun p => (x :: p.1, p.2))

/-- Rust `str::split(pat)` for a multi-character pattern `c :: cs`
(non-overlapping, left to right). -/
def splitOnSeq (c : Char) (cs : List Char) : List Char → List (List Char)
  | [] => [[]]
  | x :: rest =>
    if (c :: cs).isPrefixOf (x :: rest) then
      [] :: splitOnSeq c cs (rest.drop cs.length)
    else
      match splitOnSeq c cs rest with
      | [] => [[x]]
      | s :: ss => (x :: s) :: ss
termination_by l => l.length
decreasing_by
  · simp [List.length_drop]
    omega
  · simp

/-- Rust `str::strip_prefix`. -/
def stripPrefixL (pat l : List Char) : Option (List Char) :=
  if pat.isPrefixOf l then some (l.drop pat.length) else none

/-- Rust `str::contains(pat)` over string patterns. -/
def containsStr (hay pat : List Char) : Bool :=
  hay.tails.any (fun t => pat.isPrefixOf t)

/-- Rust `str::find(pat)`: byte index of the first occurrence. -/
def findSub (pat : List Char) : List Char → Option Nat
  | [] => if pat = [] then some 0 else none
  | l@(_ :: rest) =>
    if pat.isPrefixOf l then some 0
    else (findSub pat rest).map (· + 1)

/-- Rust `str::lines`: split at newlines, drop a final empty segment,
strip one trailing carriage return per line. -/
def linesOf (l : List Char) : List (List Char) :=
  let parts := splitOnChar '\n' l
  let parts := match parts.getLast? with
    | some [] => parts.dropLast
    | _ => parts
  parts.map (fun s => if s.getLast? = some '\r' then s.dropLast else s)

/-- Rust `str::to_lowercase` (ASCII-faithful). -/
def toLowerStr (l : List Char) : List Char := l.map Char.toLower

/-- Rust `str::replace(from, to)` for single characters. -/
def replaceChar (a b : Char) (l : List Char) : List Char :=
  l.map (fun c => if c = a then b else c)

/-- `utils::normalize_package_name`: lowercase, hyphens to underscores. -/
def normalize_package_name (l : List Char) : List Char :=
  replaceChar '-' '_' (toLowerStr l)

/-- The leading-decimal-digits parse used by `compare_versions`: Rust
`s.chars().take_while(is_ascii_digit).collect().parse::<u64>().unwrap_or(0)`
(both an empty digit prefix and a u64 overflow parse to 0). -/
def parse_num (s : List Char) : Nat :=
  let digits := s.takeWhile Char.isDigit
  let n := digits.foldl (fun acc c => acc * 10 + (c.toNat - 48)) 0
  if digits = [] then 0 else if n < 2 ^ 64 then n else 0

/-- The tail of the `compare_versions` loop once the left segment list is
exhausted: the left value is the 0 pad, so the first positive right
segment decides. -/
def cmpNil : List Nat → Int
  | [] => 0
  | b :: bs => if 0 < b then -1 else cmpNil bs

/-- The segment-wise comparison loop of `utils::compare_versions`: walk both
segment lists padded with zeroes, return at the first difference. -/
def cmpPad : List Nat → List Nat → Int
  | [], bs => cmpNil bs
  | a :: as_, [] => if 0 < a then 1 else cmpPad as_ []
  | a :: as_, b :: bs =>
    if a < b then -1 else if b < a then 1 else cmpPad as_ bs

/-- `utils::compare_versions`: split on `.`, parse leading digits of each
segment, compare segment-wise with zero padding. -/
def compare_versions (a b : List Char) : Int :=
  cmpPad ((splitOnChar '.' a).map parse_num) ((splitOnChar '.' b).map parse_num)

/-- `utils::strip_local_version`: the prefix before the first `+`. -/
def strip_local_version (version : List Char) : List Char :=
  (splitOnChar '+' version).headD version

/-- The specifier operators recognized by `version_satisfies_specifier`. -/
inductive SpecOp
  | opTilde
  | opGe
  | opLe
  | opNe
  | opEq
  | opGt
  | opLt
deriving DecidableEq

/-- The operator-prefix dispatch of `utils::version_satisfies_specifier`,
tried in the source's order (`~=`, `>=`, `<=`, `!=`, `==`, `>`, `<`). -/
def specOpSplit (constraint : List Char) : Option (SpecOp × List Char) :=
  if let some rest := stripPrefixL (chars "~=") constraint then some (.opTilde, trim rest)
  else if let some rest := stripPrefixL (chars ">=") constraint then some (.opGe, trim rest)
  else if let some rest := stripPrefixL (chars "<=") constraint then some (.opLe, trim rest)
  else if let some rest := stripPrefixL (chars "!=") constraint then some (.opNe, trim rest)
  else if let some rest := stripPrefixL (chars "==") constraint then some (.opEq, trim rest)
  else if let some rest := stripPrefixL (chars ">") constraint then some (.opGt, trim rest)
  else if let some rest := stripPrefixL (chars "<") constraint then some (.opLt, trim rest)
  else none

/-- One iteration of the constraint loop in
`utils::version_satisfies_specifier`: `true` means the loop continues
(the constraint holds or is skipped). -/
def constraintHolds (installedClean constraint0 : List Char) : Bool :=
  let constraint := trim constraint0
  if constraint = [] then true
  else
    match specOpSplit constraint with
    | none => true
    | some (op, verStr) =>
      let reqClean := strip_local_version verStr
      if op = .opEq && (chars ".*").isSuffixOf reqClean then
        let pfx := reqClean.take (reqClean.length - 2)
        if !pfx.isPrefixOf installedClean
            && !(pfx ++ chars ".").isPrefixOf installedClean
            && decide (installedClean ≠ pfx) then
          false
        else true
      else
        let cmp := compare_versions installedClean reqClean
        match op with
        | .opGe => decide (0 ≤ cmp)
        | .opLe => decide (cmp ≤ 0)
        | .opGt => decide (0 < cmp)
        | .opLt => decide (cmp < 0)
        | .opEq => decide (cmp = 0)
        | .opNe => decide (cmp ≠ 0)
        | .opTilde =>
          decide (0 ≤ cmp) &&
            (let parts := splitOnChar '.' reqClean
             if 2 ≤ parts.length then
               let major := List.intercalate (chars ".") (parts.take (parts.length - 1))
               major.isPrefixOf installedClean || (major ++ chars ".").isPrefixOf installedClean
             else true)

/-- `utils::version_satisfies_specifier`: split the specifier on `,`;
every constraint must hold against the local-suffix-stripped installed
version. -/
def version_satisfies_specifier (installed specifier : List Char) : Bool :=
  let installedClean := strip_local_version installed
  (splitOnChar ',' specifier).all (constraintHolds installedClean)

/-- `utils::parse_requirement_name_and_spec`: split a requirement into
name (extras stripped) and specifier, handling parenthesized and inline
forms. -/
def parse_requirement_name_and_spec (req0 : List Char) : List Char × List Char :=
  let req := trim req0
  match req.findIdx? (fun c => c = '(') with
  | some parenStart =>
    let name := trim (req.take parenStart)
    let name := trim ((splitOnChar '[' name).headD name)
    let spec := trim (trimEndMatchesChar ')' (trimStartMatchesChar '(' (req.drop parenStart)))
    (name, spec)
  | none =>
    match req.findIdx? (fun c => c = '>' || c = '<' || c = '=' || c = '!' || c = '~') with
    | some pos =>
      let name0 := trim (req.take pos)
      let name := trim ((splitOnChar '[' name0).headD name0)
      (name, trim (req.drop pos))
    | none =>
      (trim ((splitOnChar '[' req).headD req), [])

/-- The marker operators recognized by `eval_single_python_marker`. -/
inductive MarkOp
  | mge
  | mle
  | mne
  | meq
  | mgt
  | mlt
deriving DecidableEq

/-- `utils::eval_single_python_marker`: evaluate one
`python_version <op> "X.Y"` clause against the environment's Python
version.  Unparseable clauses evaluate to `true` (include the dep). -/
def eval_single_python_marker (clause0 envPy : List Char) : Bool :=
  let clause := trimEndMatchesChar ')' (trimStartMatchesChar '(' (trim clause0))
  let opAndRest : Option (MarkOp × List Char) :=
    if let some pos := findSub (chars ">=") clause then some (.mge, clause.drop (pos + 2))
    else if let some pos := findSub (chars "<=") clause then some (.mle, clause.drop (pos + 2))
    else if let some pos := findSub (chars "!=") clause then some (.mne, clause.drop (pos + 2))
    else if let some pos := findSub (chars "==") clause then some (.meq, clause.drop (pos + 2))
    else if let some pos := findSub (chars ">") clause then some (.mgt, clause.drop (pos + 1))
    else if let some pos := findSub (chars "<") clause then some (.mlt, clause.drop (pos + 1))
    else none
  match opAndRest with
  | none => true
  | some (op, rest) =>
    let verStr := trim (trimMatchesChar (Char.ofNat 39) (trimMatchesChar '"' (trim rest)))
    if verStr = [] then true
    else
      let cmp := compare_versions envPy verStr
      match op with
      | .mge => decide (0 ≤ cmp)
      | .mle => decide (cmp ≤ 0)
      | .mgt => decide (0 < cmp)
      | .mlt => decide (cmp < 0)
      | .meq => decide (cmp = 0)
      | .mne => decide (cmp ≠ 0)

/-- Does a marker clause mention `python_version` or
`python_full_version`? -/
def pyClause (clause : List Char) : Bool :=
  containsStr clause (chars "python_version") ||
    containsStr clause (chars "python_full_version")

/-- `utils::marker_excludes_python`: `true` means the dependency should be
skipped (the marker evaluates to false for this Python version).
The `and`/`or` blocks fall through to the next check when they contain no
Python clause, exactly as the source's early returns do. -/
def marker_excludes_python (marker envPy : List Char) : Bool :=
  let andBranch : Option Bool :=
    if containsStr marker (chars " and ") then
      let clauses := (splitOnSeq ' ' (chars "and ") marker).map trim
      let anyFalse := clauses.any (fun cl => pyClause cl && !eval_single_python_marker cl envPy)
      let hasPy := clauses.any pyClause
      if anyFalse then some true
      else if hasPy then some false
      else none
    else none
  match andBranch with
  | some r => r
  | none =>
    let orBranch : Option Bool :=
      if containsStr marker (chars " or ") then
        let clauses := (splitOnSeq ' ' (chars "or ") marker).map trim
        let hasPy := clauses.any pyClause
        let anyTrue := clauses.any (fun cl => pyClause cl && eval_single_python_marker cl envPy)
        if hasPy && !anyTrue then some true
        else if hasPy then some false
        else none
      else none
    match orBranch with
    | some r => r
    | none =>
      if pyClause marker then !eval_single_python_marker marker envPy
      else false

/-- `utils::DepIssue`: a dependency issue found during health checking. -/
inductive DepIssue
  | missing (package requiresDep : List Char)
  | incompatible (package requiresDep installed_version : List Char)
  | duplicate (package : List Char) (count : Nat)
deriving DecidableEq

/-- `utils::parse_metadata`: scan the METADATA header block for `Name:`
and `Version:`, stopping at the first blank line after a name was seen or
once both fields are found. -/
def parseMetaGo : List (List Char) → Option (List Char) → Option (List Char) →
    Option (List Char) × Option (List Char)
  | [], name, version => (name, version)
  | line :: rest, name, version =>
    if trim line = [] && name.isSome then (name, version)
    else
      let pair :=
        match stripPrefixL (chars "Name: ") line with
        | some v => (some v, version)
        | none =>
          match stripPrefixL (chars "Version: ") line with
          | some v => (name, some v)
          | none => (name, version)
      if pair.1.isSome && pair.2.isSome then pair
      else parseMetaGo rest pair.1 pair.2

/-- `utils::parse_metadata` on whole file content. -/
def parse_metadata (content : List Char) : Option (List Char) × Option (List Char) :=
  parseMetaGo (linesOf content) none none

/-- One `*.dist-info` directory of a site-packages tree, with the file
contents the scanner reads (`none` models an unreadable or absent file)
and the directory's modification time. -/
structure DistInfoDir where
  dirName : List Char
  metadata : Option (List Char)
  installerFile : Option (List Char)
  directUrl : Option (List Char)
  topLevel : Option (List Char)
  mtime : Option Int
deriving DecidableEq

/-- A site-packages directory: the name of its parent `pythonX.Y`
directory, its entries in `read_dir` order, and the optional
`torch/version.py` content. -/
structure SitePackages where
  pythonDirName : List Char
  entries : List DistInfoDir
  torchVersionPy : Option (List Char)
deriving DecidableEq

/-- Replace-or-append insertion into an association list: the model of
`HashMap::insert` with insertion-ordered iteration. -/
def insertReplace (l : List (List Char × List Char × List Char))
    (k : List Char) (v : List Char × List Char) :
    List (List Char × List Char × List Char) :=
  if l.any (fun p => p.1 = k) then
    l.map (fun p => if p.1 = k then (k, v) else p)
  else l ++ [(k, v)]

/-- Increment-or-insert for the duplicate counter
(`duplicates.entry(norm).or_insert(0); *count += 1`). -/
def bumpCount (l : List (List Char × Nat)) (k : List Char) : List (List Char × Nat) :=
  if l.any (fun p => p.1 = k) then
    l.map (fun p => if p.1 = k then (p.1, p.2 + 1) else p)
  else l ++ [(k, 1)]

/-- Association-list lookup, the model of `HashMap::get`. -/
def lookupAssoc (l : List (List Char × List Char × List Char)) (k : List Char) :
    Option (List Char × List Char) :=
  (l.find? (fun p => p.1 = k)).map (fun p => p.2)

/-- Phase 1 of `utils::check_dependencies`: walk the `.dist-info` entries
and build the `normalized name → (version, dist-info dir)` index together
with the duplicate counter. -/
def depPhase1 (entries : List DistInfoDir) :
    List (List Char × List Char × List Char) × List (List Char × Nat) :=
  entries.foldl
    (fun acc e =>
      if (chars ".dist-info").isSuffixOf e.dirName then
        match e.metadata with
        | none => acc
        | some content =>
          match parse_metadata content with
          | (some name, some version) =>
            let norm := normalize_package_name name
            (insertReplace acc.1 norm (version, e.dirName), bumpCount acc.2 norm)
          | _ => acc
      else acc)
    ([], [])

/-- The body of the `Requires-Dist` loop in phase 2 of
`utils::check_dependencies`: at most one issue per metadata line. -/
def checkReqLine (index : List (List Char × List Char × List Char))
    (envPy pkgDisplay line : List Char) : Option DepIssue :=
  match stripPrefixL (chars "Requires-Dist: ") line with
  | none => none
  | some reqStr =>
    if containsStr reqStr (chars "extra ==") || containsStr reqStr (chars "extra==\"") then
      none
    else
      let markerSkip :=
        match (splitOnChar ';' reqStr).get? 1 with
        | some markerPart =>
          let m := trim markerPart
          if containsStr m (chars "sys_platform")
              || containsStr m (chars "platform_system")
              || containsStr m (chars "os_name")
              || containsStr m (chars "implementation_name")
              || containsStr m (chars "platform_machine") then
            true
          else marker_excludes_python m envPy
        | none => false
      if markerSkip then none
      else
        let reqNoMarker := trim ((splitOnChar ';' reqStr).headD reqStr)
        if containsStr reqNoMarker (chars " @ ") then none
        else
          let pair := parse_requirement_name_and_spec reqNoMarker
          let depNorm := normalize_package_name pair.1
          match lookupAssoc index depNorm with
          | none => some (.missing pkgDisplay pair.1)
          | some res =>
            if pair.2 ≠ [] && !version_satisfies_specifier res.1 pair.2 then
              some (.incompatible pkgDisplay (pair.1 ++ pair.2) res.1)
            else none

/-- `utils::check_dependencies`: duplicate issues from phase 1, then the
`Requires-Dist` issues of each readable `.dist-info` METADATA in scan
order.  `none` models an environment without a site-packages directory,
for which the checker returns no issues. -/
def check_dependencies (sp? : Option SitePackages) : List DepIssue :=
  match sp? with
  | none => []
  | some sp =>
    let envPy := (stripPrefixL (chars "python") sp.pythonDirName).getD (chars "3.12")
    let phase1 := depPhase1 sp.entries
    let dupIssues := (phase1.2.filter (fun p => decide (1 < p.2))).map
      (fun p => DepIssue.duplicate p.1 p.2)
    let reqIssues := sp.entries.flatMap (fun e =>
      if (chars ".dist-info").isSuffixOf e.dirName then
        match e.metadata with
        | none => []
        | some content =>
          match (parse_metadata content).1 with
          | none => []
          | some pkgName => (linesOf content).filterMap (checkReqLine phase1.1 envPy pkgName)
      else [])
    dupIssues ++ reqIssues

/-- One row of the `environments` table (the columns the project-link
operations read). -/
structure EnvRow where
  id : Nat
  name : List Char
  path : List Char
deriving DecidableEq

/-- One row of the `project_environments` table. -/
structure LinkRow where
  project_path : List Char
  env_id : Nat
  is_default : Bool
  tag : Option (List Char)
  link_type : List Char
  activation_count : Int
  last_activated_at : Option Int
deriving DecidableEq

/-- The registry state touched by the project-link operations. -/
structure Db where
  envs : List EnvRow
  links : List LinkRow
deriving DecidableEq

/-- `Database::get_env_id`. -/
def get_env_id (db : Db) (name : List Char) : Option Nat :=
  (db.envs.find? (fun e => e.name = name)).map (fun e => e.id)

/-- `Database::associate_project`: clear other defaults for the project
path when `is_default`, delete the existing `(project_path, env)` row,
insert a fresh `user` link.  `none` models the environment-not-found
error. -/
def associate_project (db : Db) (project_path env_name : List Char)
    (tag : Option (List Char)) (is_default : Bool) : Option Db :=
  match get_env_id db env_name with
  | none => none
  | some envId =>
    let links1 :=
      if is_default then
        db.links.map (fun r =>
          if r.project_path = project_path then { r with is_default := false } else r)
      else db.links
    let links2 := links1.filter (fun r => !(r.project_path = project_path && r.env_id = envId))
    some { db with
      links := links2 ++
        [{ project_path := project_path, env_id := envId, is_default := is_default,
           tag := tag, link_type := chars "user", activation_count := 0,
           last_activated_at := none }] }

/-- `Database::record_activation`: bump count and timestamp on the
existing `(project_path, env)` row, or insert a fresh `activated` link
with count 1.  `now` models `CURRENT_TIMESTAMP`; `none` models the
environment-not-found error. -/
def record_activation (db : Db) (project_path env_name : List Char) (now : Int) : Option Db :=
  match get_env_id db env_name with
  | none => none
  | some envId =>
    let isHit := fun (r : LinkRow) => r.project_path = project_path && r.env_id = envId
    let updated := db.links.countP isHit
    if updated = 0 then
      some { db with
        links := db.links ++
          [{ project_path := project_path, env_id := envId, is_default := false,
             tag := none, link_type := chars "activated", activation_count := 1,
             last_activated_at := some now }] }
    else
      some { db with
        links := db.links.map (fun r =>
          if isHit r then
            { r with activation_count := r.activation_count + 1, last_activated_at := some now }
          else r) }

/-- One activation candidate as selected by the candidate queries:
`(env name, env path, project_path, activation count, link type)`. -/
structure Cand where
  env_name : List Char
  env_path : List Char
  project_path : List Char
  activation_count : Int
  link_type : List Char
deriving DecidableEq

/-- `last_activated_at DESC` with SQLite's NULLs-last placement. -/
def tsGe : Option Int → Option Int → Bool
  | some a, some b => decide (b ≤ a)
  | some _, none => true
  | none, some _ => false
  | none, none => true

/-- The `ORDER BY is_default DESC, activation_count DESC,
last_activated_at DESC` comparator of the candidate queries. -/
def rowLe (a b : LinkRow) : Bool :=
  if a.is_default ≠ b.is_default then a.is_default
  else if a.activation_count ≠ b.activation_count then
    decide (b.activation_count < a.activation_count)
  else tsGe a.last_activated_at b.last_activated_at

/-- Stable insertion used by `sortBy`. -/
def insertBy {α : Type} (le : α → α → Bool) (x : α) : List α → List α
  | [] => [x]
  | y :: ys => if le x y then x :: y :: ys else y :: insertBy le x ys

/-- Stable insertion sort, the model of the backend's `ORDER BY`. -/
def sortBy {α : Type} (le : α → α → Bool) : List α → List α
  | [] => []
  | x :: xs => insertBy le x (sortBy le xs)

/-- The `JOIN environments e ON pe.env_id = e.id` projection of the
candidate queries. -/
def joinEnv (db : Db) (r : LinkRow) : Option Cand :=
  (db.envs.find? (fun e => e.id = r.env_id)).map (fun e =>
    { env_name := e.name, env_path := e.path, project_path := r.project_path,
      activation_count := r.activation_count, link_type := r.link_type })

/-- `Database::get_activation_candidates`: rows whose `project_path` is in
`paths`, ordered by default flag, activation count and recency. -/
def get_activation_candidates (db : Db) (paths : List (List Char)) : List Cand :=
  if paths = [] then []
  else
    (sortBy rowLe (db.links.filter (fun r => decide (r.project_path ∈ paths)))).filterMap
      (joinEnv db)

/-- `Database::get_subfolder_candidates`: rows whose `project_path` lies
strictly below `base_path` (prefix `base_path/`), ordered as above, then
filtered to at most `max_depth` components below the base. -/
def get_subfolder_candidates (db : Db) (base_path : List Char) (max_depth : Nat) : List Cand :=
  let pfx := trimEndMatchesChar '/' base_path ++ chars "/"
  let sorted := sortBy rowLe (db.links.filter (fun r => pfx.isPrefixOf r.project_path))
  (sorted.filterMap (joinEnv db)).filter (fun c =>
    let relative := (stripPrefixL pfx c.project_path).getD []
    decide (((splitOnChar '/' relative).countP (fun s => !s.isEmpty)) ≤ max_depth))

/-- The prefix of a path before its last slash (`none` when there is no
slash at all). -/
def beforeLastSlash : List Char → Option (List Char)
  | [] => none
  | c :: rest =>
    match beforeLastSlash rest with
    | some p => some (c :: p)
    | none => if c = '/' then some [] else none

/-- `std::path::Path::parent` on the canonical absolute paths the
resolver walks: `/a/b → /a`, `/a → /`, `/ → none`. -/
def parentPath (l : List Char) : Option (List Char) :=
  if l = [] ∨ l = chars "/" then none
  else
    match beforeLastSlash l with
    | none => some []
    | some [] => some (chars "/")
    | some p => some p

theorem beforeLastSlash_length {l p : List Char} (h : beforeLastSlash l = some p) :
    p.length < l.length := by
  induction l generalizing p with
  | nil => simp [beforeLastSlash] at h
  | cons c rest ih =>
    simp only [beforeLastSlash] at h
    cases hr : beforeLastSlash rest with
    | some q =>
      rw [hr] at h
      cases h
      have := ih hr
      simp
      omega
    | none =>
      rw [hr] at h
      by_cases hc : c = '/'
      · simp [hc] at h
        cases h
        simp
      · simp [hc] at h

theorem parentPath_length {l p : List Char} (h : parentPath l = some p) :
    p.length < l.length := by
  unfold parentPath at h
  split at h
  · exact absurd h (by simp)
  · rename_i hne
    cases hb : beforeLastSlash l with
    | none =>
      rw [hb] at h
      cases h
      have : l ≠ [] := fun hl => hne (Or.inl hl)
      cases l with
      | nil => exact absurd rfl this
      | cons c rest => simp
    | some q =>
      rw [hb] at h
      cases q with
      | nil =>
        cases h
        cases l with
        | nil => exact absurd rfl (fun hl => hne (Or.inl (by exact hl)))
        | cons c rest =>
          cases rest with
          | nil =>
            simp only [beforeLastSlash] at hb
            by_cases hc : c = '/'
            · exact absurd (by simp [chars, hc]) (fun hl => hne (Or.inr hl))
            · simp [hc] at hb
          | cons d rest2 => simp [chars]
      | cons x xs =>
        cases h
        exact beforeLastSlash_length hb

/-- The hardcoded umbrella stop list of the activation search. -/
def stopDirs : List (List Char) :=
  [chars "/", chars "/tmp", chars "/home", chars "/root"]

/-- The upward half of the bidirectional activation search in
`Commands::Activate`: walk ancestors, stopping at the home directory, the
stop list, umbrella directories (immediate children of `/` or `$HOME`),
or once the level budget is spent; query exact-path candidates at each
surviving ancestor.  The source counts levels upward (`up_depth += 1;
if up_depth > 2 break`); here the same bound is the decreasing budget
`levels`, started at 2. -/
def upwardWalk (db : Db) (home : List Char) : Nat → List Char → List Cand
  | 0, _ => []
  | n + 1, current =>
    match parentPath current with
    | none => []
    | some parent =>
      if parent = home ∨ parent ∈ stopDirs then []
      else if parentPath parent = some (chars "/") ∨ parentPath parent = some home then []
      else get_activation_candidates db [parent] ++ upwardWalk db home n parent

/-- Deduplicate candidates by environment name, keeping the first
occurrence. -/
def dedupByEnv (seen : List (List Char)) : List Cand → List Cand
  | [] => []
  | c :: rest =>
    if c.env_name ∈ seen then dedupByEnv seen rest
    else c :: dedupByEnv (c.env_name :: seen) rest

/-- The bidirectional activation search of `Commands::Activate` (no-name
form): downward (exact CWD, then subfolders to depth 2), upward (exact
ancestors to 2 levels), merged in that order, deduplicated by environment
name keeping the first, and filtered to environments still on disk
(`envOnDisk` models the `Path::exists` probe). -/
def resolveActivation (db : Db) (home cwd : List Char) (envOnDisk : List Char → Bool) :
    List Cand :=
  let all := get_activation_candidates db [cwd]
    ++ get_subfolder_candidates db cwd 2
    ++ upwardWalk db home 2 cwd
  (dedupByEnv [] all).filter (fun c => envOnDisk c.env_path)

/-- `utils::extract_json_string`: regex-free extraction of a string value
by key. -/
def extract_json_string (content key : List Char) : Option (List Char) :=
  let pat := '"' :: key ++ chars "\":"
  match findSub pat content with
  | none => none
  | some start =>
    let rest := content.drop (start + pat.length)
    match rest.findIdx? (fun c => c = '"') with
    | none => none
    | some qs =>
      let rest2 := rest.drop (qs + 1)
      match rest2.findIdx? (fun c => c = '"') with
      | none => none
      | some qe => some (rest2.take qe)

/-- `utils::parse_direct_url`: `(install_source, is_editable, source_url,
commit_id)` from `direct_url.json` content. -/
def parse_direct_url (content : List Char) :
    Option (List Char) × Bool × Option (List Char) × Option (List Char) :=
  let isEditable := containsStr content (chars "\"editable\": true")
    || containsStr content (chars "\"editable\":true")
  let isGit := containsStr content (chars "\"vcs\": \"git\"")
    || containsStr content (chars "\"vcs\":\"git\"")
  let sourceUrl := extract_json_string content (chars "url")
  let commitId := extract_json_string content (chars "commit_id")
  let installSource :=
    if isGit then some (chars "git")
    else if (sourceUrl.map (fun u => (chars "file://").isPrefixOf u)).getD false then
      some (chars "local")
    else some (chars "pypi")
  (installSource, isEditable, sourceUrl, commitId)

/-- `utils::read_torch_version`: `(torch version, cuda version)` from
`torch/version.py`. -/
def read_torch_version (sp? : Option SitePackages) : Option (List Char × Option (List Char)) :=
  sp?.bind fun sp =>
  sp.torchVersionPy.bind fun content =>
  ((((linesOf content).find? (fun l => (chars "__version__").isPrefixOf l)).bind fun l =>
    ((splitOnChar '=' l).get? 1).map fun v =>
      trimMatchesChar '"' (trimMatchesChar (Char.ofNat 39) (trim v))).map fun torch =>
  let cuda := ((linesOf content).find? (fun l => (chars "cuda").isPrefixOf l)).bind fun l =>
    ((splitOnChar '=' l).get? 1).bind fun v0 =>
      let v := trim v0
      if v = chars "None" then none
      else some (trimMatchesChar '"' (trimMatchesChar (Char.ofNat 39) v))
  (torch, cuda))

/-- `utils::read_python_version`: the `version = X.Y.Z` line of
`pyvenv.cfg` (`none` models a missing or unreadable file). -/
def read_python_version (cfg? : Option (List Char)) : Option (List Char) :=
  cfg?.bind fun content =>
    (((linesOf content).find? (fun line => (chars "version").isPrefixOf (trim line))).bind
      (splitOnceChar '=')).map (fun p => trim p.2)

/-- `db::PackageMetadata`, the scanner's output record. -/
structure PackageMetadata where
  name : List Char
  version : Option (List Char)
  installer : Option (List Char)
  install_source : Option (List Char)
  is_editable : Bool
  source_url : Option (List Char)
  commit_id : Option (List Char)
  import_name : Option (List Char)
  installed_at : Option Int
deriving DecidableEq

/-- The torch-version override at the end of `utils::get_packages`:
rewrite the version of the first record named `torch`. -/
def replaceFirstTorch (v : List Char) : List PackageMetadata → List PackageMetadata
  | [] => []
  | p :: rest =>
    if p.name = chars "torch" then { p with version := some v } :: rest
    else p :: replaceFirstTorch v rest

/-- `utils::get_packages`: one record per well-formed `.dist-info`
directory, with the torch version overridden from `torch/version.py`. -/
def get_packages (sp? : Option SitePackages) : List PackageMetadata :=
  match sp? with
  | none => []
  | some sp =>
    let base := sp.entries.filterMap (fun e =>
      if (chars ".dist-info").isSuffixOf e.dirName then
        match e.metadata with
        | none => none
        | some content =>
          match (parse_metadata content).1 with
          | none => none
          | some name0 =>
            let pkgName := toLowerStr name0
            let parsed :=
              match e.directUrl with
              | some c => parse_direct_url c
              | none => (some (chars "pypi"), false, none, none)
            let normalizedPip := toLowerStr (replaceChar '-' '_' pkgName)
            let importName := e.topLevel.bind (fun tl =>
              let ents := ((linesOf tl).map trim).filter (fun l => !l.isEmpty)
              if ents.any (fun x => toLowerStr x = normalizedPip) then none
              else ents.find? (fun x => !((chars "_").isPrefixOf x)))
            some { name := pkgName, version := (parse_metadata content).2,
                   installer := e.installerFile.map trim,
                   install_source := parsed.1, is_editable := parsed.2.1,
                   source_url := parsed.2.2.1, commit_id := parsed.2.2.2,
                   import_name := importName, installed_at := e.mtime }
      else none)
    if base.any (fun p => p.name = chars "torch") then
      match read_torch_version sp? with
      | some pr => replaceFirstTorch pr.1 base
      | none => base
    else base

/-- `types::HealthDiagnostic`, the closed diagnostic taxonomy. -/
inductive HealthDiagnostic
  | pythonOk (version : List Char)
  | pythonMissing
  | brokenSymlink (target : List Char)
  | sitePackagesOk
  | sitePackagesMissing
  | cudaConsistent (suffix : List Char)
  | cudaMismatch (details : List Char)
  | cpuCudaConflict (details : List Char)
  | dependenciesOk
  | missingDependencies (count : Nat) (details : List Char)
  | versionConflicts (count : Nat) (details : List Char)
deriving DecidableEq

/-- `DepIssue::message` from the `Diagnostic` impl in `utils.rs`. -/
def depMessage : DepIssue → List Char
  | .missing p r => p ++ chars " requires " ++ r ++ chars ", which is not installed"
  | .incompatible p r v =>
    p ++ chars " requires " ++ r ++ chars ", but " ++ v ++ chars " is installed"
  | .duplicate p c =>
    p ++ chars " has " ++ (Nat.repr c).data ++ chars " duplicate .dist-info entries"

/-- The state of `<env>/bin/python` as probed by `ZenOps::check_health`:
absent, a regular file, a symlink whose target could not be read, or a
symlink with the recorded resolution outcomes (absolute, and relative to
`bin/`). -/
inductive PythonBinState
  | absent
  | regular
  | symlinkUnreadable
  | symlink (target : List Char) (targetResolves targetResolvesInBin : Bool)
deriving DecidableEq

/-- The filesystem surface of one environment that `check_health`
reads. -/
structure EnvFs where
  pythonBin : PythonBinState
  pyvenvCfg : Option (List Char)
  sitePackages : Option SitePackages
deriving DecidableEq

/-- Step 1 of `ZenOps::check_health`: the Python-binary probe. -/
def pythonSection (fs : EnvFs) : List HealthDiagnostic :=
  match fs.pythonBin with
  | .absent => [.pythonMissing]
  | .symlinkUnreadable => [.pythonMissing]
  | .regular => [.pythonOk ((read_python_version fs.pyvenvCfg).getD (chars "unknown"))]
  | .symlink target tAbs tBin =>
    if tAbs || tBin then
      [.pythonOk ((read_python_version fs.pyvenvCfg).getD (chars "unknown"))]
    else [.brokenSymlink target]

/-- Step 2 of `ZenOps::check_health`: the site-packages probe. -/
def spSection : Option SitePackages → List HealthDiagnostic
  | some _ => [.sitePackagesOk]
  | none => [.sitePackagesMissing]

/-- Append-or-insert for the CUDA suffix buckets
(`HashMap<String, Vec<String>>` with insertion-ordered iteration). -/
def addBucket (l : List (List Char × List (List Char))) (k v : List Char) :
    List (List Char × List (List Char)) :=
  if l.any (fun p => p.1 = k) then
    l.map (fun p => if p.1 = k then (p.1, p.2 ++ [v]) else p)
  else l ++ [(k, [v])]

/-- Step 3 of `ZenOps::check_health`, bucketing packages whose version
has a `+cuNNN` or `+cpu` local suffix. -/
def cudaBuckets (packages : List PackageMetadata) : List (List Char × List (List Char)) :=
  packages.foldl
    (fun acc pkg =>
      match pkg.version with
      | none => acc
      | some ver =>
        match splitOnceChar '+' ver with
        | none => acc
        | some pr =>
          let suffix := pr.2
          if (chars "cu").isPrefixOf suffix || suffix = chars "cpu" then
            addBucket acc suffix (pkg.name ++ chars "==" ++ ver)
          else acc)
    []

/-- Step 3 of `ZenOps::check_health`: the CUDA consistency diagnostic
(zero or one item). -/
def cudaSection (buckets : List (List Char × List (List Char))) : List HealthDiagnostic :=
  if 1 < buckets.length then
    let hasCpuCuda := (buckets.any (fun b => b.1 = chars "cpu")) &&
      (buckets.any (fun b => (chars "cu").isPrefixOf b.1))
    let cudaOnly := buckets.filter (fun b => (chars "cu").isPrefixOf b.1)
    let hasMixed := 1 < cudaOnly.length
    if hasCpuCuda || hasMixed then
      let detail := chars "Mixed CUDA versions detected:" ++
        buckets.flatMap (fun b =>
          chars "\n    +" ++ b.1 ++ chars ": " ++ List.intercalate (chars ", ") b.2)
      if hasMixed then [.cudaMismatch detail] else [.cpuCudaConflict detail]
    else []
  else
    match buckets.head? with
    | some b => [.cudaConsistent b.1]
    | none => []

/-- The detail block of a dependency diagnostic: indented messages,
capped, with an `... and N more` tail. -/
def capDetail (msgs : List (List Char)) (total cap : Nat) : List Char :=
  let body := List.intercalate (chars "\n") (msgs.map (fun m => chars "    " ++ m))
  if cap < total then
    body ++ chars "\n    ... and " ++ (Nat.repr (total - cap)).data ++ chars " more"
  else body

/-- Is a dependency issue the `Missing` variant? -/
def isMissingIssue : DepIssue → Bool
  | .missing _ _ => true
  | _ => false

/-- Step 4 of `ZenOps::check_health`: the dependency diagnostics (one
`DependenciesOk`, or version conflicts and/or missing dependencies). -/
def depSection (issues : List DepIssue) : List HealthDiagnostic :=
  if issues.isEmpty then [.dependenciesOk]
  else
    let missing := issues.filter isMissingIssue
    let conflicts := issues.filter (fun i => !isMissingIssue i)
    (if !conflicts.isEmpty then
      [.versionConflicts conflicts.length
        (capDetail ((conflicts.take 10).map depMessage) conflicts.length 10)]
     else []) ++
    (if !missing.isEmpty then
      [.missingDependencies missing.length
        (capDetail ((missing.take 5).map depMessage) missing.length 5)]
     else [])

/-- `ZenOps::check_health` for a registered environment whose path
resolved: the four report sections in push order. -/
def check_health (fs : EnvFs) : List HealthDiagnostic :=
  pythonSection fs ++ spSection fs.sitePackages
    ++ cudaSection (cudaBuckets (get_packages fs.sitePackages))
    ++ depSection (check_dependencies fs.sitePackages)

/-- The `FORBIDDEN` shell-metacharacter list of `EnvName::new`
(backtick, single quote and NUL written via `Char.ofNat`). -/
def forbiddenNameChars : List Char :=
  [';', '|', '&', '$', Char.ofNat 96, '(', ')', '<', '>', '"',
   Char.ofNat 39, '\n', '\r', Char.ofNat 0]

/-- Rust `String::len` (UTF-8 byte length) of a character list. -/
def utf8Len (l : List Char) : Nat := (l.map Char.utf8Size).sum

/-- `EnvName::new`: trim, then validate (empty, length, path characters,
shell metacharacters, leading dot); errors collapse to `none`, success
carries the stored (trimmed) name. -/
def envName_new (raw : List Char) : Option (List Char) :=
  let trimmed := trim raw
  if trimmed.isEmpty then none
  else if 128 < utf8Len trimmed then none
  else if trimmed.contains '/' || trimmed.contains '\\'
      || containsStr trimmed (chars "..") then none
  else if trimmed.any (fun c => forbiddenNameChars.contains c) then none
  else if (chars ".").isPrefixOf trimmed then none
  else some trimmed

/-- The environment-name rules as the specification lists them
(non-empty, at most 128 bytes, no path separators or `..`, no shell
metacharacters, no leading dot), stated of an already-trimmed string.
This is the spec-side definition the refinement theorem for `EnvName::new`
compares against. -/
def specNameRules (t : List Char) : Bool :=
  !t.isEmpty && utf8Len t ≤ 128 &&
    !t.contains '/' && !t.contains '\\' && !containsStr t (chars "..") &&
    !(t.any (fun c => forbiddenNameChars.contains c)) &&
    !((chars ".").isPrefixOf t)

theorem cmpPad_self (a : List Nat) : cmpPad a a = 0 := by
  induction a with
  | nil => rfl
  | cons x xs ih => simp [cmpPad, ih]

theorem cmpPad_nil_left (b : List Nat) : cmpPad [] b = cmpNil b := rfl

theorem cmpPad_antisymm (a b : List Nat) : cmpPad a b = -cmpPad b a := by
  induction a generalizing b with
  | nil =>
    induction b with
    | nil => rfl
    | cons y ys ihb =>
      simp only [cmpPad, cmpNil]
      by_cases hy : 0 < y
      · simp [hy]
      · simp only [hy, if_false]
        rw [← cmpPad_nil_left, ihb]
  | cons x xs ih =>
    cases b with
    | nil =>
      simp only [cmpPad, cmpNil]
      by_cases hx : 0 < x
      · simp [hx]
      · simp only [hx, if_false]
        rw [ih [], cmpPad_nil_left]
    | cons y ys =>
      simp only [cmpPad]
      rcases Nat.lt_trichotomy x y with h | h | h
      · rw [if_pos h, if_neg (by omega), if_pos h]
      · subst h
        rw [if_neg (by omega), if_neg (by omega), if_neg (by omega),
          if_neg (by omega)]
        exact ih ys
      · rw [if_neg (by omega), if_pos h, if_pos h]
        rfl

theorem cmpPad_unfold (a b : List Nat) :
    cmpPad a b =
      if a.headD 0 < b.headD 0 then -1
      else if b.headD 0 < a.headD 0 then 1
      else cmpPad a.tail b.tail := by
  cases a <;> cases b <;> simp [cmpPad, cmpNil]

theorem cmpPad_trans_aux :
    ∀ n (a b c : List Nat), a.length + b.length + c.length ≤ n →
      cmpPad a b ≤ 0 → cmpPad b c ≤ 0 → cmpPad a c ≤ 0 := by
  intro n
  induction n with
  | zero =>
    intro a b c hlen _ _
    have ha : a = [] := List.length_eq_zero.mp (by omega)
    have hc : c = [] := List.length_eq_zero.mp (by omega)
    subst ha
    subst hc
    simp [cmpPad, cmpNil]
  | succ n ih =>
    intro a b c hlen h1 h2
    by_cases hz : a = [] ∧ c = []
    · obtain ⟨ha, hc⟩ := hz
      subst ha
      subst hc
      simp [cmpPad, cmpNil]
    · rw [cmpPad_unfold] at h1 h2
      rw [cmpPad_unfold]
      have hab : a.headD 0 ≤ b.headD 0 := by
        by_contra hlt
        push_neg at hlt
        rw [if_neg (by omega), if_pos hlt] at h1
        omega
      have hbc : b.headD 0 ≤ c.headD 0 := by
        by_contra hlt
        push_neg at hlt
        rw [if_neg (by omega), if_pos hlt] at h2
        omega
      by_cases hac : a.headD 0 < c.headD 0
      · rw [if_pos hac]
        omega
      · rw [if_neg hac, if_neg (by omega)]
        rw [if_neg (by omega), if_neg (by omega)] at h1
        rw [if_neg (by omega), if_neg (by omega)] at h2
        apply ih a.tail b.tail c.tail _ h1 h2
        have la : a.tail.length = a.length - 1 := List.length_tail a
        have lb : b.tail.length = b.length - 1 := List.length_tail b
        have lc : c.tail.length = c.length - 1 := List.length_tail c
        have hone : 1 ≤ a.length ∨ 1 ≤ c.length := by
          rcases not_and_or.mp hz with h | h
          · left
            cases a with
            | nil => exact absurd rfl h
            | cons _ _ => simp
          · right
            cases c with
            | nil => exact absurd rfl h
            | cons _ _ => simp
        omega

theorem stripPrefixL_append (p r : List Char) : stripPrefixL p (p ++ r) = some r := by
  unfold stripPrefixL
  rw [if_pos (List.isPrefixOf_iff_prefix.mpr (List.prefix_append p r)), List.drop_left]

theorem splitOnChar_not_mem {sep : Char} {l : List Char} (h : sep ∉ l) :
    splitOnChar sep l = [l] := by
  induction l with
  | nil => rfl
  | cons c rest ih =>
    simp only [splitOnChar]
    have h1 : ¬(c = sep) := fun e => h (by simp [e])
    have h2 : sep ∉ rest := fun m => h (List.mem_cons_of_mem _ m)
    rw [if_neg h1, ih h2]

theorem splitOnChar_append_cons {sep : Char} {X : List Char} (Y : List Char) (h : sep ∉ X) :
    splitOnChar sep (X ++ sep :: Y) = X :: splitOnChar sep Y := by
  induction X with
  | nil => simp [splitOnChar]
  | cons c rest ih =>
    simp only [List.cons_append, splitOnChar]
    have h1 : ¬(c = sep) := fun e => h (by simp [e])
    rw [if_neg h1]
    simp only [List.append_eq]
    rw [ih (fun m => h (List.mem_cons_of_mem _ m))]

theorem dropWhile_id_of_none {p : Char → Bool} {l : List Char}
    (h : ∀ c ∈ l, p c = false) : l.dropWhile p = l := by
  cases l with
  | nil => rfl
  | cons c rest =>
    rw [List.dropWhile_cons, if_neg (by simp [h c (List.mem_cons_self c rest)])]

theorem trim_eq_self {l : List Char} (h : ∀ c ∈ l, isWsChar c = false) : trim l = l := by
  unfold trim trimLeft trimRight
  rw [dropWhile_id_of_none h,
    dropWhile_id_of_none (fun c hc => h c (List.mem_reverse.mp hc)), List.reverse_reverse]

theorem strip_local_eq_self {l : List Char} (h : '+' ∉ l) : strip_local_version l = l := by
  unfold strip_local_version
  rw [splitOnChar_not_mem h]
  rfl

theorem specOpSplit_tilde (rest : List Char) :
    specOpSplit (chars "~=" ++ rest) = some (.opTilde, trim rest) := by
  unfold specOpSplit
  rw [stripPrefixL_append]

/-- C6: for all strings, `compare_versions` is antisymmetric
(`compare(a,b) = −compare(b,a)`), zero on equal arguments
(`compare(a,a) = 0`), and transitive (`compare(a,b) ≤ 0` and
`compare(b,c) ≤ 0` imply `compare(a,c) ≤ 0`). -/
theorem c6_compare_versions_order :
    (∀ a b : List Char, compare_versions a b = -compare_versions b a) ∧
    (∀ a : List Char, compare_versions a a = 0) ∧
    (∀ a b c : List Char, compare_versions a b ≤ 0 → compare_versions b c ≤ 0 →
      compare_versions a c ≤ 0) := by
  refine ⟨fun a b => cmpPad_antisymm _ _, fun a => cmpPad_self _, fun a b c h1 h2 => ?_⟩
  exact cmpPad_trans_aux
    (((splitOnChar '.' a).map parse_num).length + ((splitOnChar '.' b).map parse_num).length +
      ((splitOnChar '.' c).map parse_num).length) _ _ _ (le_refl _) h1 h2

/-- C2 (amended): a `Requires-Dist` line whose marker part mentions an
OS/platform marker name (`sys_platform`, `platform_system`, `os_name`,
`implementation_name`, `platform_machine`) is skipped entirely by the
dependency checker: the named dependency is not evaluated against the
installed index and no issue is emitted for that line. -/
theorem c2_platform_marker_line_skipped
    (index : List (List Char × List Char × List Char))
    (envPy pkg reqStr mPart : List Char)
    (hm : (splitOnChar ';' reqStr).get? 1 = some mPart)
    (hplat : (containsStr (trim mPart) (chars "sys_platform")
      || containsStr (trim mPart) (chars "platform_system")
      || containsStr (trim mPart) (chars "os_name")
      || containsStr (trim mPart) (chars "implementation_name")
      || containsStr (trim mPart) (chars "platform_machine")) = true) :
    checkReqLine index envPy pkg (chars "Requires-Dist: " ++ reqStr) = none := by
  unfold checkReqLine
  rw [stripPrefixL_append]
  simp only [hm, hplat, if_true]
  by_cases hx : (containsStr reqStr (chars "extra ==")
      || containsStr reqStr (chars "extra==\"")) = true
  · simp [hx]
  · simp [hx]

/-- Witness for C2's amended theorem at a concrete line: the requirement
`bar; sys_platform == "win32"` is skipped even though `bar` is absent
from the (empty) index. -/
theorem c2_platform_marker_line_skipped_witness :
    checkReqLine [] (chars "3.12") (chars "foo")
      (chars "Requires-Dist: " ++ chars "bar; sys_platform == \"win32\"") = none :=
  c2_platform_marker_line_skipped [] (chars "3.12") (chars "foo")
    (chars "bar; sys_platform == \"win32\"") (chars " sys_platform == \"win32\"")
    (by decide) (by decide)

/-- METADATA of a package `foo` requiring `bar` under a `sys_platform`
marker that names the current host's platform. -/
def mdFooPlatform : List Char :=
  chars "Name: foo\nVersion: 1.0\nRequires-Dist: bar; sys_platform == \"linux\"\n"

/-- A site-packages directory containing only `foo`, whose single
requirement carries the `sys_platform == "linux"` marker; `bar` is not
installed. -/
def spPlatform : SitePackages :=
  { pythonDirName := chars "python3.12",
    entries := [{ dirName := chars "foo-1.0.dist-info", metadata := some mdFooPlatform,
                  installerFile := none, directUrl := none, topLevel := none, mtime := none }],
    torchVersionPy := none }

/-- Counterexample to C2 as stated: `bar` is absent from the index, yet
the checker emits no issue at all for the `sys_platform`-marked
requirement — the dependency is not "still evaluated against the
installed set" and no `Missing` issue appears. -/
theorem c2_claim_counterexample :
    check_dependencies (some spPlatform) = [] ∧
      lookupAssoc (depPhase1 spPlatform.entries).1 (chars "bar") = none := by
  constructor <;> rfl

/-- METADATA of `foo` requiring `bar>=1` under `python_version < "3.9"`. -/
def mdFooPyMarker : List Char :=
  chars "Name: foo\nVersion: 1.0\nRequires-Dist: bar>=1; python_version < \"3.9\"\n"

/-- The C3 environment with site-packages under `python3.12/`. -/
def spPy312 : SitePackages :=
  { pythonDirName := chars "python3.12",
    entries := [{ dirName := chars "foo-1.0.dist-info", metadata := some mdFooPyMarker,
                  installerFile := none, directUrl := none, topLevel := none, mtime := none }],
    torchVersionPy := none }

/-- The C3 environment with the same metadata under `python3.8/`. -/
def spPy38 : SitePackages := { spPy312 with pythonDirName := chars "python3.8" }

/-- C3: with `foo` requiring `bar>=1; python_version < "3.9"` and no
`bar` installed, the checker emits no diagnostic when site-packages lies
under `python3.12/`, and emits a `Missing` diagnostic for `bar` (reported
against requirer `foo`) when the same metadata lies under `python3.8/`. -/
theorem c3_missing_dep_python_marker :
    check_dependencies (some spPy312) = [] ∧
      check_dependencies (some spPy38) = [DepIssue.missing (chars "foo") (chars "bar")] := by
  constructor <;> rfl

/-- METADATA of the first duplicate `foo` dist-info (version 1.0). -/
def mdFooV10 : List Char := chars "Name: foo\nVersion: 1.0\n"

/-- METADATA of the second duplicate `foo` dist-info (version 1.1). -/
def mdFooV11 : List Char := chars "Name: foo\nVersion: 1.1\n"

/-- The C5 site-packages with two well-formed `foo` dist-info
directories. -/
def spDupFoo : SitePackages :=
  { pythonDirName := chars "python3.12",
    entries := [{ dirName := chars "foo-1.0.dist-info", metadata := some mdFooV10,
                  installerFile := none, directUrl := none, topLevel := none, mtime := none },
                { dirName := chars "foo-1.1.dist-info", metadata := some mdFooV11,
                  installerFile := none, directUrl := none, topLevel := none, mtime := none }],
    torchVersionPy := none }

/-- C5: two `foo` dist-info directories produce exactly one
`Duplicate{foo, 2}` issue, and the phase-1 index retains exactly one
entry for `foo` — the last one inserted during the scan (version 1.1
from `foo-1.1.dist-info`). -/
theorem c5_duplicate_distinfo :
    check_dependencies (some spDupFoo) = [DepIssue.duplicate (chars "foo") 2] ∧
      (depPhase1 spDupFoo.entries).1 =
        [(chars "foo", chars "1.1", chars "foo-1.1.dist-info")] := by
  constructor <;> rfl

/-- Counterexample to C4 as stated: installed version `10.0` against
`~=1.2` — the compare side holds and `10.0` does not share the `1.`
prefix, yet the specifier is satisfied, because the source accepts any
installed version whose text merely starts with the digits of `X`. -/
theorem c4_claim_counterexample :
    version_satisfies_specifier (chars "10.0") (chars "~=1.2") = true ∧
      0 ≤ compare_versions (chars "10.0") (chars "1.2") ∧
      (chars "1.").isPrefixOf (chars "10.0") = false := by
  refine ⟨by decide, by decide, by decide⟩

/-- C4 (amended): for every installed version `v` and clause `~=X.Y`
(with `X`, `Y` free of commas, dots, plus signs and whitespace),
`satisfies(v, "~=X.Y")` holds iff `compare(v, "X.Y") ≥ 0` and the
stripped installed version starts with the *string* `X` — either as
`X` followed by a dot or as a bare textual prefix, so `10.0` does
satisfy `~=1.2`. -/
theorem c4_tilde_amended (v X Y : List Char)
    (hXc : ',' ∉ X) (hXd : '.' ∉ X) (hXp : '+' ∉ X) (hXw : ∀ c ∈ X, isWsChar c = false)
    (hYc : ',' ∉ Y) (hYd : '.' ∉ Y) (hYp : '+' ∉ Y) (hYw : ∀ c ∈ Y, isWsChar c = false) :
    version_satisfies_specifier v (chars "~=" ++ (X ++ '.' :: Y)) =
      (decide (0 ≤ compare_versions (strip_local_version v) (X ++ '.' :: Y)) &&
        (X.isPrefixOf (strip_local_version v)
          || (X ++ chars ".").isPrefixOf (strip_local_version v))) := by
  have hmem : ∀ c ∈ chars "~=" ++ (X ++ '.' :: Y),
      c = '~' ∨ c = '=' ∨ c = '.' ∨ c ∈ X ∨ c ∈ Y := by
    intro c hc
    simp [chars] at hc
    tauto
  have hS_nc : ',' ∉ chars "~=" ++ (X ++ '.' :: Y) := by
    intro hm
    rcases hmem ',' hm with h | h | h | h | h
    · exact absurd h (by decide)
    · exact absurd h (by decide)
    · exact absurd h (by decide)
    · exact hXc h
    · exact hYc h
  have hS_ws : ∀ c ∈ chars "~=" ++ (X ++ '.' :: Y), isWsChar c = false := by
    intro c hc
    rcases hmem c hc with h | h | h | h | h
    · subst h; decide
    · subst h; decide
    · subst h; decide
    · exact hXw c h
    · exact hYw c h
  have hrest_ws : ∀ c ∈ X ++ '.' :: Y, isWsChar c = false := by
    intro c hc
    exact hS_ws c (List.mem_append_right _ hc)
  have hrest_np : '+' ∉ X ++ '.' :: Y := by
    intro hm
    rcases List.mem_append.mp hm with h | h
    · exact hXp h
    · rcases List.mem_cons.mp h with h | h
      · exact absurd h (by decide)
      · exact hYp h
  unfold version_satisfies_specifier
  rw [splitOnChar_not_mem hS_nc]
  simp only [List.all_cons, List.all_nil, Bool.and_true]
  unfold constraintHolds
  rw [trim_eq_self hS_ws]
  rw [if_neg (by simp [chars])]
  rw [specOpSplit_tilde, trim_eq_self hrest_ws]
  simp only [strip_local_eq_self hrest_np]
  rw [splitOnChar_append_cons Y hXd, splitOnChar_not_mem hYd]
  simp [List.intercalate]

/-- Witness for C4's amended theorem at `v = 10.0`, `X = 1`, `Y = 2`:
both sides of the equation evaluate on the counterexample input. -/
theorem c4_tilde_amended_witness :
    version_satisfies_specifier (chars "10.0") (chars "~=" ++ (chars "1" ++ '.' :: chars "2")) =
      (decide (0 ≤ compare_versions (strip_local_version (chars "10.0"))
          (chars "1" ++ '.' :: chars "2")) &&
        ((chars "1").isPrefixOf (strip_local_version (chars "10.0"))
          || (chars "1" ++ chars ".").isPrefixOf (strip_local_version (chars "10.0")))) :=
  c4_tilde_amended (chars "10.0") (chars "1") (chars "2")
    (by decide) (by decide) (by decide) (by decide)
    (by decide) (by decide) (by decide) (by decide)

/-- The C1 registry before any link exists: two environments on disk. -/
def dbBidirBase : Db :=
  { envs := [{ id := 1, name := chars "envA", path := chars "/envs/a" },
             { id := 2, name := chars "envB", path := chars "/envs/b" }],
    links := [] }

/-- The C1 registry: a `user` link for `/proj` registered through
`associate_project`, and an `activated` link for `/proj/sub` created
through `record_activation`. -/
def dbBidir : Db :=
  let db1 := (associate_project dbBidirBase (chars "/proj") (chars "envA") none true).getD
    dbBidirBase
  (record_activation db1 (chars "/proj/sub") (chars "envB") 100).getD db1

/-- Counterexample to C1 as stated: at neither CWD does the resolver
return the `/proj/sub` link first followed by the `/proj` link.  With
CWD `/proj` the exact-match `/proj` link comes first; with CWD
`/proj/sub/x` the `/proj` link is not returned at all. -/
theorem c1_claim_counterexample :
    ((resolveActivation dbBidir (chars "/home/user") (chars "/proj") (fun _ => true)).map
        (fun c => c.project_path) ≠ [chars "/proj/sub", chars "/proj"]) ∧
      ((resolveActivation dbBidir (chars "/home/user") (chars "/proj/sub/x")
          (fun _ => true)).map
        (fun c => c.project_path) ≠ [chars "/proj/sub", chars "/proj"]) := by
  constructor <;> decide

/-- C1 (amended): with a `user` link for `/proj` and an `activated` link
for `/proj/sub`, the resolver invoked at CWD `/proj` returns both
candidates with the exact-CWD `/proj` link first and the `/proj/sub`
subfolder link second (exact match precedes the downward subfolder
query); invoked at CWD `/proj/sub/x` it returns only the `/proj/sub`
link (upward 1 level) — the `/proj` ancestor is blocked as an umbrella
directory because it is an immediate child of `/`. -/
theorem c1_activation_resolution :
    resolveActivation dbBidir (chars "/home/user") (chars "/proj") (fun _ => true) =
      [{ env_name := chars "envA", env_path := chars "/envs/a",
         project_path := chars "/proj", activation_count := 0, link_type := chars "user" },
       { env_name := chars "envB", env_path := chars "/envs/b",
         project_path := chars "/proj/sub", activation_count := 1,
         link_type := chars "activated" }] ∧
      resolveActivation dbBidir (chars "/home/user") (chars "/proj/sub/x") (fun _ => true) =
        [{ env_name := chars "envB", env_path := chars "/envs/b",
           project_path := chars "/proj/sub", activation_count := 1,
           link_type := chars "activated" }] := by
  constructor <;> rfl

/-- C7: after every successful `associate_project` call with
`is_default = true`, exactly one link row for that project path has
`is_default = true`, whatever links and defaults existed before. -/
theorem c7_default_exclusive (db : Db) (p env : List Char) (tag : Option (List Char))
    (db' : Db) (h : associate_project db p env tag true = some db') :
    db'.links.countP (fun r => decide (r.project_path = p) && r.is_default) = 1 := by
  unfold associate_project at h
  cases hid : get_env_id db env with
  | none => rw [hid] at h; cases h
  | some eid =>
    rw [hid] at h
    simp only [Option.some.injEq] at h
    subst h
    rw [if_pos trivial]
    rw [List.countP_append]
    have hz : (((db.links.map (fun r =>
        if r.project_path = p then { r with is_default := false } else r)).filter
          (fun r => !(r.project_path = p && r.env_id = eid))).countP
        (fun r => decide (r.project_path = p) && r.is_default)) = 0 := by
      rw [List.countP_eq_zero]
      intro r hr
      have hr2 := List.mem_of_mem_filter hr
      obtain ⟨r0, _, rfl⟩ := List.mem_map.mp hr2
      by_cases hp : r0.project_path = p
      · simp [hp]
      · simp [hp]
    rw [hz]
    simp

/-- The registry used by the C7 witness: one environment and one
pre-existing default link for `/p`. -/
def dbW7 : Db :=
  { envs := [{ id := 1, name := chars "e", path := chars "/e" }],
    links := [{ project_path := chars "/p", env_id := 1, is_default := true,
                tag := none, link_type := chars "user", activation_count := 0,
                last_activated_at := none }] }

/-- The registry state after the C7 witness call. -/
def dbW7After : Db :=
  { envs := [{ id := 1, name := chars "e", path := chars "/e" }],
    links := [{ project_path := chars "/p", env_id := 1, is_default := true,
                tag := none, link_type := chars "user", activation_count := 0,
                last_activated_at := none }] }

/-- Witness for C7 at a concrete registry. -/
theorem c7_default_exclusive_witness :
    dbW7After.links.countP
      (fun r => decide (r.project_path = chars "/p") && r.is_default) = 1 :=
  c7_default_exclusive dbW7 (chars "/p") (chars "e") none dbW7After (by rfl)

/-- C8: a successful `record_activation` leaves every pre-existing link
row in place with an activation count that does not decrease (it grows by
at most one) and a `link_type` that never changes — in particular a
`user` link is never downgraded to `activated`; and either no row is
added (an existing `(project, env)` row was bumped) or exactly one fresh
`activated` row with count 1 is appended. -/
theorem c8_record_activation_monotone (db : Db) (p env : List Char) (now : Int) (db' : Db)
    (h : record_activation db p env now = some db') :
    (∀ i (hi : i < db.links.length), ∃ hj : i < db'.links.length,
        (db.links.get ⟨i, hi⟩).activation_count ≤ (db'.links.get ⟨i, hj⟩).activation_count ∧
        (db'.links.get ⟨i, hj⟩).activation_count ≤
          (db.links.get ⟨i, hi⟩).activation_count + 1 ∧
        (db'.links.get ⟨i, hj⟩).link_type = (db.links.get ⟨i, hi⟩).link_type) ∧
      (db'.links.length = db.links.length ∨
        ∃ r, db'.links = db.links ++ [r] ∧ r.activation_count = 1 ∧
          r.link_type = chars "activated") := by
  unfold record_activation at h
  cases hid : get_env_id db env with
  | none => rw [hid] at h; cases h
  | some eid =>
    rw [hid] at h
    simp only [Option.some.injEq] at h
    split at h
    · simp only [Option.some.injEq] at h
      subst h
      constructor
      · intro i hi
        have hj :
            i < (db.links ++
              [(⟨p, eid, false, none, chars "activated", 1, some now⟩ : LinkRow)]).length := by
          simp
          omega
        have hval :
            (db.links ++
              [(⟨p, eid, false, none, chars "activated", 1, some now⟩ : LinkRow)]).get ⟨i, hj⟩ =
              db.links.get ⟨i, hi⟩ := by
          rw [List.get_eq_getElem, List.get_eq_getElem, List.getElem_append_left hi]
        refine ⟨hj, ?_, ?_, ?_⟩ <;> rw [hval]
        omega
      · right
        exact ⟨_, rfl, rfl, rfl⟩
    · simp only [Option.some.injEq] at h
      subst h
      constructor
      · intro i hi
        have hj : i < (db.links.map (fun r =>
            if r.project_path = p && r.env_id = eid then
              { r with activation_count := r.activation_count + 1,
                       last_activated_at := some now }
            else r)).length := by simpa using hi
        refine ⟨hj, ?_⟩
        rw [List.get_eq_getElem, List.get_eq_getElem, List.getElem_map]
        by_cases hhit : (db.links[i].project_path = p && db.links[i].env_id = eid) = true
        · simp only [hhit, if_true]
          refine ⟨by omega, by omega, trivial⟩
        · simp only [hhit]
          simp
      · left
        simp

/-- The registry used by the C8 witness: one environment and one `user`
link for `/p`. -/
def dbW8 : Db :=
  { envs := [{ id := 1, name := chars "e", path := chars "/e" }],
    links := [{ project_path := chars "/p", env_id := 1, is_default := true,
                tag := none, link_type := chars "user", activation_count := 3,
                last_activated_at := some 50 }] }

/-- The registry state after the C8 witness call. -/
def dbW8After : Db :=
  { envs := [{ id := 1, name := chars "e", path := chars "/e" }],
    links := [{ project_path := chars "/p", env_id := 1, is_default := true,
                tag := none, link_type := chars "user", activation_count := 4,
                last_activated_at := some 99 }] }

/-- Is a diagnostic one of the Python-binary probes? -/
def isPyDiag : HealthDiagnostic → Bool
  | .pythonOk _ => true
  | .pythonMissing => true
  | .brokenSymlink _ => true
  | _ => false

/-- Is a diagnostic one of the site-packages probes? -/
def isSpDiag : HealthDiagnostic → Bool
  | .sitePackagesOk => true
  | .sitePackagesMissing => true
  | _ => false

/-- Is a diagnostic one of the CUDA-consistency results? -/
def isCudaDiag : HealthDiagnostic → Bool
  | .cudaConsistent _ => true
  | .cudaMismatch _ => true
  | .cpuCudaConflict _ => true
  | _ => false

/-- Is a diagnostic one of the dependency results? -/
def isDepDiag : HealthDiagnostic → Bool
  | .dependenciesOk => true
  | .missingDependencies _ _ => true
  | .versionConflicts _ _ => true
  | _ => false

theorem pythonSection_counts (fs : EnvFs) :
    (pythonSection fs).countP isPyDiag = 1 ∧ (pythonSection fs).countP isSpDiag = 0 ∧
      (pythonSection fs).countP isCudaDiag = 0 ∧ (pythonSection fs).countP isDepDiag = 0 ∧
      (pythonSection fs).length = 1 ∧ HealthDiagnostic.dependenciesOk ∉ pythonSection fs := by
  unfold pythonSection
  cases fs.pythonBin with
  | absent => simp [isPyDiag, isSpDiag, isCudaDiag, isDepDiag]
  | regular => simp [isPyDiag, isSpDiag, isCudaDiag, isDepDiag]
  | symlinkUnreadable => simp [isPyDiag, isSpDiag, isCudaDiag, isDepDiag]
  | symlink t a b =>
    by_cases h : (a || b) = true <;> simp [h, isPyDiag, isSpDiag, isCudaDiag, isDepDiag]

theorem spSection_counts (o : Option SitePackages) :
    (spSection o).countP isPyDiag = 0 ∧ (spSection o).countP isSpDiag = 1 ∧
      (spSection o).countP isCudaDiag = 0 ∧ (spSection o).countP isDepDiag = 0 ∧
      (spSection o).length = 1 ∧ HealthDiagnostic.dependenciesOk ∉ spSection o := by
  cases o <;> simp [spSection, isPyDiag, isSpDiag, isCudaDiag, isDepDiag]

theorem cudaSection_counts (bs : List (List Char × List (List Char))) :
    (cudaSection bs).countP isPyDiag = 0 ∧ (cudaSection bs).countP isSpDiag = 0 ∧
      (cudaSection bs).countP isCudaDiag ≤ 1 ∧ (cudaSection bs).countP isDepDiag = 0 ∧
      (cudaSection bs).length ≤ 1 ∧ HealthDiagnostic.dependenciesOk ∉ cudaSection bs := by
  unfold cudaSection
  by_cases h1 : 1 < bs.length
  · rw [if_pos h1]
    dsimp only
    split_ifs <;> simp [isPyDiag, isSpDiag, isCudaDiag, isDepDiag]
  · rw [if_neg h1]
    cases hh : bs.head? <;> simp [isPyDiag, isSpDiag, isCudaDiag, isDepDiag]

theorem depSection_counts (issues : List DepIssue) :
    (depSection issues).countP isPyDiag = 0 ∧ (depSection issues).countP isSpDiag = 0 ∧
      (depSection issues).countP isCudaDiag = 0 ∧
      (depSection issues).countP isDepDiag = (depSection issues).length ∧
      1 ≤ (depSection issues).length ∧ (depSection issues).length ≤ 2 ∧
      (HealthDiagnostic.dependenciesOk ∈ depSection issues ↔ issues = []) := by
  unfold depSection
  by_cases he : issues.isEmpty = true
  · simp [he, List.isEmpty_iff.mp he, isPyDiag, isSpDiag, isCudaDiag, isDepDiag]
  · have hne : issues ≠ [] := by simpa [List.isEmpty_iff] using he
    rw [if_neg he]
    have hsome : ¬(issues.filter (fun i => !isMissingIssue i) = [] ∧
        issues.filter isMissingIssue = []) := by
      rintro ⟨hcememe, hmeme⟩
      obtain ⟨x, hx⟩ := List.exists_mem_of_ne_nil issues hne
      by_cases hmx : isMissingIssue x = true
      · have hxin : x ∈ issues.filter isMissingIssue := List.mem_filter.mpr ⟨hx, hmx⟩
        rw [hmeme] at hxin
        exact absurd hxin (List.not_mem_nil x)
      · have hxin : x ∈ issues.filter (fun i => !isMissingIssue i) :=
          List.mem_filter.mpr ⟨hx, by simp [hmx]⟩
        rw [hcememe] at hxin
        exact absurd hxin (List.not_mem_nil x)
    by_cases hcf : (issues.filter (fun i => !isMissingIssue i)).isEmpty = true <;>
      by_cases hmf : (issues.filter isMissingIssue).isEmpty = true
    · exact absurd ⟨List.isEmpty_iff.mp hcf, List.isEmpty_iff.mp hmf⟩ hsome
    · simp [hcf, hmf, hne, isPyDiag, isSpDiag, isCudaDiag, isDepDiag]
    · simp [hcf, hmf, hne, isPyDiag, isSpDiag, isCudaDiag, isDepDiag]
    · simp [hcf, hmf, hne, isPyDiag, isSpDiag, isCudaDiag, isDepDiag]

/-- C9: for every environment, the health report has exactly one
Python-binary diagnostic, exactly one site-packages diagnostic, at most
one CUDA diagnostic and at least one dependency diagnostic;
`DependenciesOk` appears exactly when the dependency checker reports no
issues; and the report always has between 3 and 5 items. -/
theorem c9_health_report_shape (fs : EnvFs) :
    (check_health fs).countP isPyDiag = 1 ∧
      (check_health fs).countP isSpDiag = 1 ∧
      (check_health fs).countP isCudaDiag ≤ 1 ∧
      1 ≤ (check_health fs).countP isDepDiag ∧
      (HealthDiagnostic.dependenciesOk ∈ check_health fs ↔
        check_dependencies fs.sitePackages = []) ∧
      3 ≤ (check_health fs).length ∧ (check_health fs).length ≤ 5 := by
  obtain ⟨p1, p2, p3, p4, p5, p6⟩ := pythonSection_counts fs
  obtain ⟨s1, s2, s3, s4, s5, s6⟩ := spSection_counts fs.sitePackages
  obtain ⟨k1, k2, k3, k4, k5, k6⟩ :=
    cudaSection_counts (cudaBuckets (get_packages fs.sitePackages))
  obtain ⟨d1, d2, d3, d4, d5, d6, d7⟩ := depSection_counts (check_dependencies fs.sitePackages)
  unfold check_health
  simp only [List.countP_append, List.length_append]
  refine ⟨by omega, by omega, by omega, by omega, ?_, by omega, by omega⟩
  simp only [List.mem_append]
  constructor
  · rintro (((h | h) | h) | h)
    · exact absurd h p6
    · exact absurd h s6
    · exact absurd h k6
    · exact d7.mp h
  · intro h
    exact Or.inr (d7.mpr h)

/-- C10: `EnvName::new` trims leading and trailing whitespace before
validating: for every raw input the result is `some (trim raw)` exactly
when the trimmed form satisfies the listed name rules; in particular
`"  demo  "` is accepted, the stored name is the trimmed `"demo"`, and
the raw input does not round-trip byte for byte. -/
theorem c10_envname_trims :
    (∀ raw : List Char, envName_new raw =
        (if specNameRules (trim raw) = true then some (trim raw) else none)) ∧
      envName_new (chars "  demo  ") = some (chars "demo") ∧
      chars "demo" ≠ chars "  demo  " := by
  refine ⟨fun raw => ?_, by decide, by decide⟩
  unfold envName_new specNameRules
  have hiff : (128 < utf8Len (trim raw)) ↔ ¬(utf8Len (trim raw) ≤ 128) := by omega
  simp only [Bool.or_eq_true, Bool.and_eq_true, Bool.not_eq_true', Bool.not_eq_true,
    decide_eq_true_eq, List.any_eq_true, List.isEmpty_iff, decide_eq_false_iff_not]
  split_ifs <;> first | rfl | (simp_all <;> tauto)

/-- Witness for C8 at a concrete registry: the existing `user` link for
`/p` keeps its type, and its count grows from 3 to 4. -/
theorem c8_record_activation_monotone_witness :
    (∀ i (hi : i < dbW8.links.length), ∃ hj : i < dbW8After.links.length,
        (dbW8.links.get ⟨i, hi⟩).activation_count ≤
          (dbW8After.links.get ⟨i, hj⟩).activation_count ∧
        (dbW8After.links.get ⟨i, hj⟩).activation_count ≤
          (dbW8.links.get ⟨i, hi⟩).activation_count + 1 ∧
        (dbW8After.links.get ⟨i, hj⟩).link_type = (dbW8.links.get ⟨i, hi⟩).link_type) ∧
      (dbW8After.links.length = dbW8.links.length ∨
        ∃ r, dbW8After.links = dbW8.links ++ [r] ∧ r.activation_count = 1 ∧
          r.link_type = chars "activated") :=
  c8_record_activation_monotone dbW8 (chars "/p") (chars "e") 99 dbW8After (by rfl)

end Zen
